import Mathlib

/-!
Verification of the bookmark-offset reconciliation logic of the PDF merger
(src/source/pdf_merger.py, class PDFMergerApp, methods
merge_pdfs and the recursive bookmark helper).

The embedding models the merge loop of merge_pdfs and the recursive
bookmark traversal exactly as the Python code performs them:

* An outline item, as the PyPDF2 reader hands it to the code, is either a
  nested list of items or a node object carrying a title (possibly absent),
  a destination page (possibly absent or unresolvable, both observed by the
  code as a skip) and a list of children.
* The merger state is the flat list of emitted outline entries (level,
  title, 0-based destination page), the number of pages appended so far,
  the number of successfully appended sources, the per-source outcomes and
  the value of the running page offset observed at the start of each
  source (the variable current_page_offset of the code).
* External failure points of the PyPDF2 capability are modelled as fields
  of the source document: whether PdfReader construction succeeds
  (openOk), whether reading reader.outline succeeds (outlineOk) and
  whether merger.append succeeds (appendOk).
-/

/-- A flattened outline entry as stored in the merger: nesting depth
(level 1 is top level), title and 0-based destination page in the merged
document. -/
structure Entry where
  level : Nat
  title : String
  destPage : Nat
deriving DecidableEq, Repr

/-- An outline item as PyPDF2 presents it to the code: either a nested
list (the isinstance-list branch of the helper) or a node object with a
title, a destination and children.  A missing title models both a None
title and an attribute access that raises; a missing destination models
get_destination_page_number returning None or raising: in all of these
cases the code skips the item. -/
inductive OutlineItem where
  | sublist (items : List OutlineItem)
  | node (title : Option String) (dest : Option Nat) (children : List OutlineItem)

/-- One source document together with the behaviour of the external PDF
library on it: whether PdfReader opens it, its page count, whether
reader.outline is readable, the outline itself, and whether
merger.append succeeds on it. -/
structure SourceDoc where
  name : String
  openOk : Bool
  pageCount : Nat
  outlineOk : Bool
  outline : List OutlineItem
  appendOk : Bool

/-- Per-source outcome recorded by the merge loop. -/
inductive Outcome where
  | merged
  | failedOpen
  | noPages
  | failedAppend
deriving DecidableEq, Repr

/-- Root part of os.path.splitext: the name with its extension removed.
The extension starts at the last dot, unless every character before that
dot is itself a dot (leading-dot rule of splitext). -/
def splitext_root (s : String) : String :=
  let cs := s.toList
  let extRev := cs.reverse.takeWhile (fun c => c ≠ '.')
  if extRev.length = cs.length then s
  else
    let root := cs.take (cs.length - extRev.length - 1)
    if root.all (fun c => c = '.') then s else String.mk root

mutual

/-- Embedding of one iteration step of _add_bookmarks_recursively on a
single item.  parentLevel is the nesting depth of the parent bookmark
(0 for a top-level parent of None); a list item is recursed into with the
same parent; a node item is emitted when both its title and its
destination page are available, and only then are its children processed,
one level deeper; otherwise the node and its whole subtree are skipped. -/
def add_bookmarks_item (parentLevel : Nat) (it : OutlineItem) (pageOffset : Nat) :
    List Entry :=
  match it with
  | OutlineItem.sublist xs => add_bookmarks_recursively parentLevel xs pageOffset
  | OutlineItem.node t d cs =>
    match t, d with
    | some title, some p =>
      ⟨parentLevel + 1, title, p + pageOffset⟩ ::
        add_bookmarks_recursively (parentLevel + 1) cs pageOffset
    | _, _ => []

/-- Embedding of _add_bookmarks_recursively: traverse the outline items in
order, emitting the flattened entries produced under a parent bookmark of
the given nesting depth, with every destination shifted by pageOffset. -/
def add_bookmarks_recursively (parentLevel : Nat) (items : List OutlineItem)
    (pageOffset : Nat) : List Entry :=
  match items with
  | [] => []
  | it :: rest =>
    add_bookmarks_item parentLevel it pageOffset ++
      add_bookmarks_recursively parentLevel rest pageOffset

end

mutual

/-- Whether an item (or a node below it) resolves to local page 0: the
Case A condition of the specification, a self-describing first-page
bookmark. -/
def hasFirstPageBookmarkItem : OutlineItem → Bool
  | OutlineItem.sublist xs => hasFirstPageBookmark xs
  | OutlineItem.node _ d cs =>
    (match d with | some 0 => true | _ => false) || hasFirstPageBookmark cs

/-- Whether an outline forest contains a node resolving to local page 0. -/
def hasFirstPageBookmark : List OutlineItem → Bool
  | [] => false
  | it :: rest => hasFirstPageBookmarkItem it || hasFirstPageBookmark rest

end

/-- Processing of a single source document inside the merge loop of
merge_pdfs, at a given running page offset.  Returns the outline entries
added to the merger for this source, the number of pages its processing
contributes to the merger, and the recorded outcome.

Mirrors the code: a failing PdfReader contributes nothing; a zero-page
source is skipped; otherwise a top-level wrapper bookmark titled with the
file name without extension is added at the current offset, then the
source outline (when readable) is added below it, and only then is
merger.append attempted, so a failing append leaves the already added
bookmarks in the merger while contributing no pages. -/
def processSource (off : Nat) (d : SourceDoc) : List Entry × Nat × Outcome :=
  if d.openOk then
    if d.pageCount = 0 then ([], 0, Outcome.noPages)
    else
      let wrapper : Entry := ⟨1, splitext_root d.name, off⟩
      let outlineEntries :=
        if d.outlineOk then add_bookmarks_recursively 1 d.outline off else []
      if d.appendOk then (wrapper :: outlineEntries, d.pageCount, Outcome.merged)
      else (wrapper :: outlineEntries, 0, Outcome.failedAppend)
  else ([], 0, Outcome.failedOpen)

/-- The outline entries a source contributes to the merger. -/
def sourceEntries (off : Nat) (d : SourceDoc) : List Entry :=
  (processSource off d).1

/-- The pages a source contributes to the merger. -/
def sourcePages (d : SourceDoc) : Nat :=
  if d.openOk then
    if d.pageCount = 0 then 0
    else if d.appendOk then d.pageCount else 0
  else 0

/-- The outcome the merge loop records for a source; it depends only on
the source itself, never on the running offset. -/
def outcomeOf (d : SourceDoc) : Outcome :=
  if d.openOk then
    if d.pageCount = 0 then Outcome.noPages
    else if d.appendOk then Outcome.merged else Outcome.failedAppend
  else Outcome.failedOpen

/-- State of the merge loop of merge_pdfs: emitted entries, pages in the
merger (len of merger.pages), successfully appended source count, recorded
outcomes, and the value of current_page_offset observed at the start of
each processed source. -/
structure MergeState where
  entries : List Entry
  pages : Nat
  successCount : Nat
  statuses : List Outcome
  offsetsUsed : List Nat
deriving DecidableEq, Repr

/-- One iteration of the per-file loop of merge_pdfs. -/
def mergeStep (s : MergeState) (d : SourceDoc) : MergeState :=
  let r := processSource s.pages d
  { entries := s.entries ++ r.1
    pages := s.pages + r.2.1
    successCount := s.successCount + (if r.2.2 = Outcome.merged then 1 else 0)
    statuses := s.statuses ++ [r.2.2]
    offsetsUsed := s.offsetsUsed ++ [s.pages] }

/-- The per-file loop of merge_pdfs over a list of sources. -/
def mergeLoop (ss : List SourceDoc) (s : MergeState) : MergeState :=
  ss.foldl mergeStep s

/-- The initial merge state: fresh PdfMerger, offset 0. -/
def initState : MergeState := ⟨[], 0, 0, [], []⟩

/-- Result of a whole merge_pdfs invocation: the entries handed to the
merger, the total page count, the outcomes, the offsets observed, the
success count, whether the output file was opened for writing at all
(the write branch runs only when success_count is positive), and whether
the operation as a whole succeeded (pages written without a write
failure). -/
structure MergeResult where
  entries : List Entry
  totalPages : Nat
  statuses : List Outcome
  offsetsUsed : List Nat
  successCount : Nat
  wrote : Bool
  ok : Bool
deriving DecidableEq, Repr

/-- Embedding of merge_pdfs: run the per-file loop, then write the output
file only when at least one source was successfully appended.  writeOk
models whether the final serialization (merger.write) succeeds; when the
write branch is not reached the output path is never opened. -/
def merge_pdfs (ss : List SourceDoc) (writeOk : Bool) : MergeResult :=
  let s := mergeLoop ss initState
  if s.successCount = 0 then
    ⟨s.entries, s.pages, s.statuses, s.offsetsUsed, s.successCount, false, false⟩
  else
    ⟨s.entries, s.pages, s.statuses, s.offsetsUsed, s.successCount, true, writeOk⟩

/-- Level bump applied to an entry when its subtree is nested one level
deeper in the merged outline. -/
def levelUp (e : Entry) : Entry := ⟨e.level + 1, e.title, e.destPage⟩

/-- Title and destination of an entry, with the nesting level forgotten. -/
def entryTP (e : Entry) : String × Nat := (e.title, e.destPage)

mutual

/-- Every destination mentioned below this item is a page index below n
(a bound by the page count of the owning source). -/
def destsBelowItem (n : Nat) : OutlineItem → Bool
  | OutlineItem.sublist xs => destsBelow n xs
  | OutlineItem.node _ d cs =>
    (match d with | some p => decide (p < n) | none => true) && destsBelow n cs

/-- destsBelowItem over a forest. -/
def destsBelow (n : Nat) : List OutlineItem → Bool
  | [] => true
  | it :: rest => destsBelowItem n it && destsBelow n rest

end

mutual

/-- A fully valid item: a node object (not a bare nested list) whose title
and destination are both present, recursively.  The shape an
already-adjusted outline has when it is fed back to the algorithm. -/
def validItem : OutlineItem → Bool
  | OutlineItem.sublist _ => false
  | OutlineItem.node t d cs => t.isSome && d.isSome && validForest cs

/-- validItem over a forest. -/
def validForest : List OutlineItem → Bool
  | [] => true
  | it :: rest => validItem it && validForest rest

end

/-- An abstract outline tree, before a choice of concrete encoding: title,
destination and children. -/
inductive BNode where
  | mk (title : Option String) (dest : Option Nat) (children : List BNode)

mutual

/-- Encoding of an abstract tree as a node object whose children hang off
the children attribute (the parent/child-links shape). -/
def encodeLinked : BNode → OutlineItem
  | BNode.mk t d cs => OutlineItem.node t d (encodeLinkedForest cs)

/-- encodeLinked over a forest. -/
def encodeLinkedForest : List BNode → List OutlineItem
  | [] => []
  | b :: bs => encodeLinked b :: encodeLinkedForest bs

end

mutual

/-- Encoding of an abstract tree in the nested-lists shape of a PyPDF2
outline: the node itself carries no children attribute, and its children
follow it as a nested list. -/
def encodeNested : BNode → List OutlineItem
  | BNode.mk t d cs =>
    [OutlineItem.node t d [], OutlineItem.sublist (encodeNestedForest cs)]

/-- encodeNested over a forest. -/
def encodeNestedForest : List BNode → List OutlineItem
  | [] => []
  | b :: bs => encodeNested b ++ encodeNestedForest bs

end

mutual

/-- An abstract tree all of whose nodes carry a title and a destination. -/
def validBNode : BNode → Bool
  | BNode.mk t d cs => t.isSome && d.isSome && validBForest cs

/-- validBNode over a forest. -/
def validBForest : List BNode → Bool
  | [] => true
  | b :: bs => validBNode b && validBForest bs

end

/-- Reading a flat leveled entry list back as an outline forest: an entry
owns as descendants the maximal run of following entries with a strictly
larger level.  This is the shape in which an already-emitted outline is
presented to the algorithm again. -/
def unflatten : List Entry → List OutlineItem
  | [] => []
  | e :: rest =>
    OutlineItem.node (some e.title) (some e.destPage)
        (unflatten (rest.takeWhile (fun x => decide (e.level < x.level))))
      :: unflatten (rest.dropWhile (fun x => decide (e.level < x.level)))
termination_by es => es.length
decreasing_by
  · have h := (List.takeWhile_sublist
      (l := rest) (fun x => decide (e.level < x.level))).length_le
    simp only [List.length_cons]
    omega
  · have h := (List.dropWhile_sublist
      (l := rest) (fun x => decide (e.level < x.level))).length_le
    simp only [List.length_cons]
    omega

/-- Pages contributed per source, summed: what the final merger page count
adds up to. -/
def sumPages (ss : List SourceDoc) : Nat := (ss.map sourcePages).sum

/-- The running offset observed at the start of each source when the loop
begins at page count p. -/
def offsetList (p : Nat) : List SourceDoc → List Nat
  | [] => []
  | d :: ds => p :: offsetList (p + sourcePages d) ds

/-- The entries the loop contributes when it begins at page count p. -/
def loopEntries (p : Nat) : List SourceDoc → List Entry
  | [] => []
  | d :: ds => sourceEntries p d ++ loopEntries (p + sourcePages d) ds

theorem processSource_outcome (off : Nat) (d : SourceDoc) :
    (processSource off d).2.2 = outcomeOf d := by
  cases hOpen : d.openOk <;> by_cases hpc : d.pageCount = 0 <;>
    cases happ : d.appendOk <;>
      simp [processSource, outcomeOf, hOpen, hpc, happ]

theorem processSource_pages (off : Nat) (d : SourceDoc) :
    (processSource off d).2.1 = sourcePages d := by
  cases hOpen : d.openOk <;> by_cases hpc : d.pageCount = 0 <;>
    cases happ : d.appendOk <;>
      simp [processSource, sourcePages, hOpen, hpc, happ]

theorem mergeStep_eq (s : MergeState) (d : SourceDoc) :
    mergeStep s d =
      { entries := s.entries ++ sourceEntries s.pages d
        pages := s.pages + sourcePages d
        successCount :=
          s.successCount + (if outcomeOf d = Outcome.merged then 1 else 0)
        statuses := s.statuses ++ [outcomeOf d]
        offsetsUsed := s.offsetsUsed ++ [s.pages] } := by
  simp [mergeStep, sourceEntries, processSource_outcome, processSource_pages]

theorem mergeLoop_nil (s : MergeState) : mergeLoop [] s = s := rfl

theorem mergeLoop_cons (d : SourceDoc) (ss : List SourceDoc) (s : MergeState) :
    mergeLoop (d :: ss) s = mergeLoop ss (mergeStep s d) := rfl

theorem mergeLoop_append (as bs : List SourceDoc) (s : MergeState) :
    mergeLoop (as ++ bs) s = mergeLoop bs (mergeLoop as s) :=
  List.foldl_append mergeStep s as bs

theorem mergeLoop_statuses (ss : List SourceDoc) :
    ∀ s : MergeState, (mergeLoop ss s).statuses = s.statuses ++ ss.map outcomeOf := by
  induction ss with
  | nil => intro s; simp [mergeLoop_nil]
  | cons d ds ih =>
    intro s
    rw [mergeLoop_cons, ih, mergeStep_eq]
    simp

theorem mergeLoop_pages (ss : List SourceDoc) :
    ∀ s : MergeState, (mergeLoop ss s).pages = s.pages + sumPages ss := by
  induction ss with
  | nil => intro s; simp [mergeLoop_nil, sumPages]
  | cons d ds ih =>
    intro s
    rw [mergeLoop_cons, ih, mergeStep_eq]
    simp [sumPages]
    omega

theorem mergeLoop_offsets (ss : List SourceDoc) :
    ∀ s : MergeState,
      (mergeLoop ss s).offsetsUsed = s.offsetsUsed ++ offsetList s.pages ss := by
  induction ss with
  | nil => intro s; simp [mergeLoop_nil, offsetList]
  | cons d ds ih =>
    intro s
    rw [mergeLoop_cons, ih, mergeStep_eq]
    simp [offsetList]

theorem mergeLoop_entries (ss : List SourceDoc) :
    ∀ s : MergeState,
      (mergeLoop ss s).entries = s.entries ++ loopEntries s.pages ss := by
  induction ss with
  | nil => intro s; simp [mergeLoop_nil, loopEntries]
  | cons d ds ih =>
    intro s
    rw [mergeLoop_cons, ih, mergeStep_eq]
    simp [loopEntries]

theorem mergeLoop_success (ss : List SourceDoc) :
    ∀ s : MergeState,
      (mergeLoop ss s).successCount =
        s.successCount + ss.countP (fun d => decide (outcomeOf d = Outcome.merged)) := by
  induction ss with
  | nil => intro s; simp [mergeLoop_nil]
  | cons d ds ih =>
    intro s
    rw [mergeLoop_cons, ih, mergeStep_eq]
    by_cases h : outcomeOf d = Outcome.merged <;>
      simp [List.countP_cons, h, Nat.add_assoc, Nat.add_comm 1]

mutual

theorem level_lb_item {pl : Nat} {it : OutlineItem} {off : Nat} {e : Entry}
    (h : e ∈ add_bookmarks_item pl it off) : pl + 1 ≤ e.level := by
  cases it with
  | sublist xs =>
    exact level_lb (by simpa [add_bookmarks_item] using h)
  | node t d cs =>
    cases t with
    | none => simp [add_bookmarks_item] at h
    | some title =>
      cases d with
      | none => simp [add_bookmarks_item] at h
      | some p =>
        simp only [add_bookmarks_item, List.mem_cons] at h
        rcases h with h | h
        · subst h; exact Nat.le_refl _
        · have h2 := level_lb h
          omega

theorem level_lb {pl : Nat} {its : List OutlineItem} {off : Nat} {e : Entry}
    (h : e ∈ add_bookmarks_recursively pl its off) : pl + 1 ≤ e.level := by
  cases its with
  | nil => simp [add_bookmarks_recursively] at h
  | cons it rest =>
    simp only [add_bookmarks_recursively, List.mem_append] at h
    rcases h with h | h
    · exact level_lb_item h
    · exact level_lb h

end

mutual

theorem add_bookmarks_item_succ (pl : Nat) (it : OutlineItem) (off : Nat) :
    add_bookmarks_item (pl + 1) it off =
      (add_bookmarks_item pl it off).map levelUp := by
  cases it with
  | sublist xs =>
    simp only [add_bookmarks_item]
    exact add_bookmarks_succ pl xs off
  | node t d cs =>
    cases t with
    | none => simp [add_bookmarks_item]
    | some title =>
      cases d with
      | none => simp [add_bookmarks_item]
      | some p =>
        simp only [add_bookmarks_item, List.map_cons]
        rw [add_bookmarks_succ]
        rfl

theorem add_bookmarks_succ (pl : Nat) (its : List OutlineItem) (off : Nat) :
    add_bookmarks_recursively (pl + 1) its off =
      (add_bookmarks_recursively pl its off).map levelUp := by
  cases its with
  | nil => simp [add_bookmarks_recursively]
  | cons it rest =>
    simp only [add_bookmarks_recursively, List.map_append]
    rw [add_bookmarks_item_succ, add_bookmarks_succ]

end

mutual

theorem dest_lt_item {n pl off : Nat} {it : OutlineItem} {e : Entry}
    (hb : destsBelowItem n it = true) (h : e ∈ add_bookmarks_item pl it off) :
    e.destPage < off + n := by
  cases it with
  | sublist xs =>
    exact dest_lt (by simpa [destsBelowItem] using hb)
      (by simpa [add_bookmarks_item] using h)
  | node t d cs =>
    cases t with
    | none => simp [add_bookmarks_item] at h
    | some title =>
      cases d with
      | none => simp [add_bookmarks_item] at h
      | some p =>
        simp only [destsBelowItem, Bool.and_eq_true, decide_eq_true_eq] at hb
        simp only [add_bookmarks_item, List.mem_cons] at h
        rcases h with h | h
        · subst h; simp only []; omega
        · exact dest_lt hb.2 h

theorem dest_lt {n pl off : Nat} {its : List OutlineItem} {e : Entry}
    (hb : destsBelow n its = true) (h : e ∈ add_bookmarks_recursively pl its off) :
    e.destPage < off + n := by
  cases its with
  | nil => simp [add_bookmarks_recursively] at h
  | cons it rest =>
    simp only [destsBelow, Bool.and_eq_true] at hb
    simp only [add_bookmarks_recursively, List.mem_append] at h
    rcases h with h | h
    · exact dest_lt_item hb.1 h
    · exact dest_lt hb.2 h

end

theorem sourceEntries_def (off : Nat) (d : SourceDoc) :
    sourceEntries off d =
      if d.openOk = true ∧ d.pageCount ≠ 0 then
        ⟨1, splitext_root d.name, off⟩ ::
          (if d.outlineOk then add_bookmarks_recursively 1 d.outline off else [])
      else [] := by
  cases hOpen : d.openOk <;> by_cases hpc : d.pageCount = 0 <;>
    cases happ : d.appendOk <;>
      simp [sourceEntries, processSource, hOpen, hpc, happ]

theorem merge_pdfs_entries (ss : List SourceDoc) (w : Bool) :
    (merge_pdfs ss w).entries = (mergeLoop ss initState).entries := by
  simp only [merge_pdfs]
  split <;> rfl

theorem merge_pdfs_totalPages (ss : List SourceDoc) (w : Bool) :
    (merge_pdfs ss w).totalPages = (mergeLoop ss initState).pages := by
  simp only [merge_pdfs]
  split <;> rfl

theorem merge_pdfs_statuses (ss : List SourceDoc) (w : Bool) :
    (merge_pdfs ss w).statuses = ss.map outcomeOf := by
  have h := mergeLoop_statuses ss initState
  simp only [merge_pdfs]
  split <;> simpa [initState] using h

theorem merge_pdfs_offsets (ss : List SourceDoc) (w : Bool) :
    (merge_pdfs ss w).offsetsUsed = offsetList 0 ss := by
  have h := mergeLoop_offsets ss initState
  simp only [merge_pdfs]
  split <;> simpa [initState] using h

theorem merge_pdfs_success (ss : List SourceDoc) (w : Bool) :
    (merge_pdfs ss w).successCount =
      ss.countP (fun d => decide (outcomeOf d = Outcome.merged)) := by
  have h := mergeLoop_success ss initState
  simp only [merge_pdfs]
  split <;> simpa [initState] using h

theorem merge_pdfs_wrote (ss : List SourceDoc) (w : Bool) :
    (merge_pdfs ss w).wrote =
      ((mergeLoop ss initState).successCount ≠ 0) := by
  simp only [merge_pdfs]
  split <;> simp_all

theorem merge_pdfs_ok (ss : List SourceDoc) (w : Bool) :
    (merge_pdfs ss w).ok =
      (decide ((mergeLoop ss initState).successCount ≠ 0) && w) := by
  simp only [merge_pdfs]
  split <;> simp_all

theorem entries_bound (ss : List SourceDoc)
    (hok : ∀ d ∈ ss, d.openOk = true → d.pageCount ≠ 0 →
      d.appendOk = true ∧ destsBelow d.pageCount d.outline = true) :
    ∀ s : MergeState, (∀ e ∈ s.entries, e.destPage < s.pages) →
      ∀ e ∈ (mergeLoop ss s).entries, e.destPage < (mergeLoop ss s).pages := by
  induction ss with
  | nil => intro s hs; simpa [mergeLoop_nil] using hs
  | cons d ds ih =>
    intro s hs
    rw [mergeLoop_cons]
    refine ih (fun d2 h2 => hok d2 (List.mem_cons_of_mem _ h2)) _ ?_
    intro e he
    rw [mergeStep_eq] at he ⊢
    simp only [List.mem_append] at he
    rcases he with he | he
    · have := hs e he
      simp only []
      omega
    · by_cases hcase : d.openOk = true ∧ d.pageCount ≠ 0
      · obtain ⟨happ, hdb⟩ := hok d (List.mem_cons_self d ds) hcase.1 hcase.2
        have hsp : sourcePages d = d.pageCount := by
          simp [sourcePages, hcase.1, hcase.2, happ]
        rw [sourceEntries_def, if_pos hcase] at he
        simp only [List.mem_cons] at he
        rcases he with he | he
        · subst he
          simp only [hsp]
          omega
        · by_cases hout : d.outlineOk = true
          · rw [if_pos hout] at he
            have := dest_lt hdb he
            simp only [hsp]
            omega
          · simp [hout] at he
      · rw [sourceEntries_def, if_neg hcase] at he
        simp at he

theorem addBm_valid_head (pl off : Nat) (its : List OutlineItem)
    (hv : validForest its = true) :
    add_bookmarks_recursively pl its off = [] ∨
    ∃ t p tl, add_bookmarks_recursively pl its off = ⟨pl + 1, t, p⟩ :: tl := by
  cases its with
  | nil => left; rfl
  | cons it rest =>
    cases it with
    | sublist xs => simp [validForest, validItem] at hv
    | node t d cs =>
      simp only [validForest, validItem, Bool.and_eq_true, Option.isSome_iff_exists] at hv
      obtain ⟨⟨⟨⟨t0, ht⟩, ⟨d0, hd⟩⟩, _⟩, _⟩ := hv
      subst ht; subst hd
      right
      exact ⟨t0, d0 + off, _, rfl⟩

theorem takeWhile_append_of {α : Type} (p : α → Bool) (l1 l2 : List α)
    (h1 : ∀ a ∈ l1, p a = true)
    (h2 : ∀ hd tl, l2 = hd :: tl → p hd = false) :
    (l1 ++ l2).takeWhile p = l1 ∧ (l1 ++ l2).dropWhile p = l2 := by
  induction l1 with
  | nil =>
    simp only [List.nil_append]
    cases l2 with
    | nil => exact ⟨rfl, rfl⟩
    | cons hd tl =>
      have := h2 hd tl rfl
      simp [List.takeWhile_cons, List.dropWhile_cons, this]
  | cons a l1 ih =>
    have ha := h1 a (List.mem_cons_self a l1)
    have := ih (fun x hx => h1 x (List.mem_cons_of_mem _ hx))
    simp [List.takeWhile_cons, List.dropWhile_cons, ha, this.1, this.2]

theorem unflatten_rt (pl : Nat) :
    (its : List OutlineItem) → validForest its = true →
      unflatten (add_bookmarks_recursively pl its 0) = its
  | [], _ => by simp only [add_bookmarks_recursively]; rw [unflatten]
  | OutlineItem.sublist xs :: rest, hv => by
    simp [validForest, validItem] at hv
  | OutlineItem.node t d cs :: rest, hv => by
    simp only [validForest, validItem, Bool.and_eq_true,
      Option.isSome_iff_exists] at hv
    obtain ⟨⟨⟨⟨t0, ht⟩, ⟨d0, hd⟩⟩, hcs⟩, hrest⟩ := hv
    subst ht; subst hd
    have ihcs := unflatten_rt (pl + 1) cs hcs
    have ihrest := unflatten_rt pl rest hrest
    have h1 : ∀ a ∈ add_bookmarks_recursively (pl + 1) cs 0,
        (fun x : Entry => decide (pl + 1 < x.level)) a = true := by
      intro a ha
      have hl := level_lb ha
      simp only [decide_eq_true_eq]
      omega
    have h2 : ∀ hd tl, add_bookmarks_recursively pl rest 0 = hd :: tl →
        (fun x : Entry => decide (pl + 1 < x.level)) hd = false := by
      intro hd tl heq
      rcases addBm_valid_head pl 0 rest hrest with h | ⟨t1, p1, tl1, h⟩
      · rw [h] at heq; cases heq
      · rw [h] at heq
        cases heq
        simp
    have hsplit := takeWhile_append_of _ _ _ h1 h2
    simp only [add_bookmarks_recursively, add_bookmarks_item, Nat.add_zero,
      List.cons_append]
    rw [unflatten]
    simp only [hsplit.1, hsplit.2, ihcs, ihrest]

theorem addBm_append (pl off : Nat) (l1 l2 : List OutlineItem) :
    add_bookmarks_recursively pl (l1 ++ l2) off =
      add_bookmarks_recursively pl l1 off ++
        add_bookmarks_recursively pl l2 off := by
  induction l1 with
  | nil => simp [add_bookmarks_recursively]
  | cons it rest ih =>
    simp only [List.cons_append, add_bookmarks_recursively, List.append_eq,
      ih, List.append_assoc]

mutual

theorem nested_linked_tp_node (pl pl2 off : Nat) (b : BNode)
    (hv : validBNode b = true) :
    (add_bookmarks_item pl (encodeLinked b) off).map entryTP =
      (add_bookmarks_recursively pl2 (encodeNested b) off).map entryTP := by
  cases b with
  | mk t d cs =>
    simp only [validBNode, Bool.and_eq_true, Option.isSome_iff_exists] at hv
    obtain ⟨⟨⟨t0, ht⟩, ⟨d0, hd⟩⟩, hcs⟩ := hv
    subst ht; subst hd
    have ih := nested_linked_tp (pl + 1) pl2 off cs hcs
    simp only [encodeLinked, encodeNested, add_bookmarks_item,
      add_bookmarks_recursively, List.map_cons, List.map_append,
      List.append_nil, List.nil_append, List.map_nil]
    exact congrArg _ ih

theorem nested_linked_tp (pl pl2 off : Nat) (bs : List BNode)
    (hv : validBForest bs = true) :
    (add_bookmarks_recursively pl (encodeLinkedForest bs) off).map entryTP =
      (add_bookmarks_recursively pl2 (encodeNestedForest bs) off).map entryTP := by
  cases bs with
  | nil => simp [encodeLinkedForest, encodeNestedForest, add_bookmarks_recursively]
  | cons b rest =>
    simp only [validBForest, Bool.and_eq_true] at hv
    have ihb := nested_linked_tp_node pl pl2 off b hv.1
    have ihr := nested_linked_tp pl pl2 off rest hv.2
    simp only [encodeLinkedForest, encodeNestedForest,
      add_bookmarks_recursively, addBm_append, List.map_append, ihb, ihr]

end

mutual

theorem nested_level_node (pl off : Nat) (b : BNode) :
    ∀ e ∈ add_bookmarks_recursively pl (encodeNested b) off,
      e.level = pl + 1 := by
  cases b with
  | mk t d cs =>
    intro e he
    simp only [encodeNested, add_bookmarks_recursively, add_bookmarks_item,
      List.mem_append] at he
    rcases he with he | he | he
    · cases t with
      | none => simp at he
      | some t0 =>
        cases d with
        | none => simp at he
        | some d0 =>
          simp only [add_bookmarks_recursively, List.mem_cons,
            List.not_mem_nil, or_false] at he
          subst he
          rfl
    · exact nested_level pl off cs e he
    · simp [add_bookmarks_recursively] at he

theorem nested_level (pl off : Nat) (bs : List BNode) :
    ∀ e ∈ add_bookmarks_recursively pl (encodeNestedForest bs) off,
      e.level = pl + 1 := by
  cases bs with
  | nil =>
    intro e he
    simp [encodeNestedForest, add_bookmarks_recursively] at he
  | cons b rest =>
    intro e he
    rw [encodeNestedForest, addBm_append, List.mem_append] at he
    rcases he with he | he
    · exact nested_level_node pl off b e he
    · exact nested_level pl off rest e he

end

theorem offsetList_get :
    ∀ (as : List SourceDoc) (p : Nat) (d : SourceDoc) (bs : List SourceDoc),
      (offsetList p (as ++ d :: bs)).get? as.length = some (p + sumPages as)
  | [], p, d, bs => by simp [offsetList, sumPages]
  | a :: as, p, d, bs => by
    have ih := offsetList_get as (p + sourcePages a) d bs
    simp only [List.cons_append, offsetList, List.length_cons,
      List.get?_cons_succ, List.append_eq]
    rw [ih]
    congr 1
    simp only [sumPages, List.map_cons, List.sum_cons]
    omega

theorem map_get_middle {α β : Type} (f : α → β) :
    ∀ (as : List α) (d : α) (bs : List α),
      ((as ++ d :: bs).map f).get? as.length = some (f d)
  | [], d, bs => by simp
  | a :: as, d, bs => by
    have ih := map_get_middle f as d bs
    simp only [List.cons_append, List.map_cons, List.length_cons,
      List.get?_cons_succ, ih]

theorem merged_sourcePages (d : SourceDoc) (h : outcomeOf d = Outcome.merged) :
    sourcePages d = d.pageCount := by
  by_cases hOpen : d.openOk = true <;> by_cases hpc : d.pageCount = 0 <;>
    by_cases happ : d.appendOk = true <;>
      simp_all [outcomeOf, sourcePages]

theorem sumPages_merged (ss : List SourceDoc)
    (h : ∀ d ∈ ss, outcomeOf d = Outcome.merged) :
    sumPages ss = (ss.map SourceDoc.pageCount).sum := by
  induction ss with
  | nil => rfl
  | cons d ds ih =>
    have hd := merged_sourcePages d (h d (List.mem_cons_self d ds))
    have h2 := ih (fun d2 h2 => h d2 (List.mem_cons_of_mem _ h2))
    simp only [sumPages, List.map_cons, List.sum_cons] at h2 ⊢
    rw [hd, h2]

theorem openFail_sourceEntries (d : SourceDoc) (h : d.openOk = false)
    (off : Nat) : sourceEntries off d = [] := by
  rw [sourceEntries_def, if_neg]
  simp [h]

theorem openFail_sourcePages (d : SourceDoc) (h : d.openOk = false) :
    sourcePages d = 0 := by
  simp [sourcePages, h]

theorem loopEntries_skip (d : SourceDoc) (hd : d.openOk = false) :
    ∀ (as : List SourceDoc) (bs : List SourceDoc) (p : Nat),
      loopEntries p (as ++ d :: bs) = loopEntries p (as ++ bs)
  | [], bs, p => by
    simp [loopEntries, openFail_sourceEntries d hd, openFail_sourcePages d hd]
  | a :: as, bs, p => by
    simp only [List.cons_append, loopEntries, List.append_eq]
    rw [loopEntries_skip d hd as bs]

theorem sumPages_skip (d : SourceDoc) (hd : d.openOk = false)
    (as bs : List SourceDoc) :
    sumPages (as ++ d :: bs) = sumPages (as ++ bs) := by
  simp [sumPages, openFail_sourcePages d hd]

theorem mergeLoop_congr (d1 d2 : SourceDoc)
    (hps : ∀ off, processSource off d1 = processSource off d2)
    (as bs : List SourceDoc) (s : MergeState) :
    mergeLoop (as ++ d1 :: bs) s = mergeLoop (as ++ d2 :: bs) s := by
  rw [mergeLoop_append, mergeLoop_append, mergeLoop_cons, mergeLoop_cons]
  unfold mergeStep
  rw [hps]

example : splitext_root "report.pdf" = "report" := by decide
example : splitext_root ".hidden" = ".hidden" := by decide
example : splitext_root "a.b.c" = "a.b" := by decide
example : splitext_root "noext" = "noext" := by decide

example :
    sourceEntries 3 ⟨"b.pdf", true, 2,
      true, [OutlineItem.node (some "Ch1") (some 0) []], true⟩ =
    [⟨1, "b", 3⟩, ⟨2, "Ch1", 3⟩] := by decide

/-- C1: the claim is false on the code.  merge_pdfs adds the synthetic
wrapper bookmark for every successfully opened, non-empty source,
unconditionally; there is no Case A.  At a source whose outline holds a
bookmark resolving to its own page 0, the emitted entries are the wrapper
(titled with the file name without extension) followed by the source
outline one level deeper, not the outline taken as-is with no level
change. -/
theorem C1_counterexample :
    hasFirstPageBookmark [OutlineItem.node (some "Ch1") (some 0) []] = true ∧
    sourceEntries 0
        ⟨"b.pdf", true, 1, true,
          [OutlineItem.node (some "Ch1") (some 0) []], true⟩ =
      [⟨1, "b", 0⟩, ⟨2, "Ch1", 0⟩] ∧
    sourceEntries 0
        ⟨"b.pdf", true, 1, true,
          [OutlineItem.node (some "Ch1") (some 0) []], true⟩ ≠
      add_bookmarks_recursively 0
        [OutlineItem.node (some "Ch1") (some 0) []] 0 :=
  ⟨by decide, by decide, by decide⟩

/-- C1 amended: even for a source whose own outline holds a first-page
bookmark, merge_pdfs emits the synthetic wrapper entry (level 1, file name
without extension, destination equal to the running page offset) and then
the source outline shifted by the offset with every level increased by
one; the outline is never taken as-is. -/
theorem C1_amended (off : Nat) (d : SourceDoc)
    (hOpen : d.openOk = true) (hpc : d.pageCount ≠ 0)
    (_hfp : hasFirstPageBookmark d.outline = true) :
    sourceEntries off d =
      ⟨1, splitext_root d.name, off⟩ ::
        (if d.outlineOk then
          (add_bookmarks_recursively 0 d.outline off).map levelUp
         else []) := by
  rw [sourceEntries_def, if_pos ⟨hOpen, hpc⟩]
  congr 1
  by_cases h : d.outlineOk = true
  · rw [if_pos h, if_pos h]
    exact add_bookmarks_succ 0 d.outline off
  · rw [if_neg h, if_neg h]

/-- C1 amended, witnessed at a concrete source owning a first-page
bookmark. -/
theorem C1_amended_witness :
    sourceEntries 0
        ⟨"c.pdf", true, 2, true,
          [OutlineItem.node (some "Intro") (some 0) []], true⟩ =
      [⟨1, "c", 0⟩, ⟨2, "Intro", 0⟩] := by
  have h := C1_amended 0
    ⟨"c.pdf", true, 2, true,
      [OutlineItem.node (some "Intro") (some 0) []], true⟩
    (by decide) (by decide) (by decide)
  rw [h]
  decide

/-- C2: the claim is false on the code.  Bookmarks for a source are added
to the merger before merger.append is attempted, and no range check is
ever applied, so when the append of a later source fails its wrapper entry
stays behind, pointing at a page at or past the end of the written
document; the out-of-range entry reaches the writer rather than being
dropped.  Here the second source fails to append: the final document has
one page, yet the entry for the failed source aims at page 1. -/
theorem C2_counterexample :
    (merge_pdfs [⟨"a.pdf", true, 1, true, [], true⟩,
        ⟨"b.pdf", true, 1, true, [], false⟩] true).wrote = true ∧
    (⟨1, "b", 1⟩ : Entry) ∈
      (merge_pdfs [⟨"a.pdf", true, 1, true, [], true⟩,
          ⟨"b.pdf", true, 1, true, [], false⟩] true).entries ∧
    (merge_pdfs [⟨"a.pdf", true, 1, true, [], true⟩,
        ⟨"b.pdf", true, 1, true, [], false⟩] true).totalPages = 1 :=
  ⟨by decide, by decide, by decide⟩

/-- C2 amended: the code never drops or clamps an entry for being out of
range; instead, provided every successfully opened, non-empty source is
also successfully appended and every destination of its outline is a page
index below its own page count, every emitted destination page lies below
the total page count of the merged document (and is a Nat, hence at least
0). -/
theorem C2_amended (ss : List SourceDoc) (w : Bool)
    (hok : ∀ d ∈ ss, d.openOk = true → d.pageCount ≠ 0 →
      d.appendOk = true ∧ destsBelow d.pageCount d.outline = true) :
    ∀ e ∈ (merge_pdfs ss w).entries,
      e.destPage < (merge_pdfs ss w).totalPages := by
  rw [merge_pdfs_entries, merge_pdfs_totalPages]
  refine entries_bound ss hok initState ?_
  intro e he
  simp [initState] at he

/-- C2 amended, witnessed on a concrete merge whose outline entry lands on
the last page of its source. -/
theorem C2_amended_witness :
    (⟨2, "One", 2⟩ : Entry) ∈
      (merge_pdfs [⟨"w.pdf", true, 3, true,
          [OutlineItem.node (some "One") (some 2) []], true⟩] true).entries ∧
    (⟨2, "One", 2⟩ : Entry).destPage <
      (merge_pdfs [⟨"w.pdf", true, 3, true,
          [OutlineItem.node (some "One") (some 2) []], true⟩] true).totalPages := by
  refine ⟨by decide, ?_⟩
  refine C2_amended _ true ?_ _ (by decide)
  intro d hd hopen hpc
  rw [List.mem_singleton] at hd
  subst hd
  exact ⟨by decide, by decide⟩

/-- C3: confirmed.  The offset the loop observes at the start of source i
(the value of current_page_offset) equals the sum of the page counts of
the earlier sources that were successfully appended, a failing or empty
source contributing zero; and when every source is successfully appended
the total page count is the sum of all page counts. -/
theorem C3_offsets_and_total :
    (∀ (as : List SourceDoc) (d : SourceDoc) (bs : List SourceDoc) (w : Bool),
      (merge_pdfs (as ++ d :: bs) w).offsetsUsed.get? as.length =
        some (sumPages as)) ∧
    (∀ (ss : List SourceDoc) (w : Bool),
      (∀ d ∈ ss, outcomeOf d = Outcome.merged) →
        (merge_pdfs ss w).totalPages = (ss.map SourceDoc.pageCount).sum) := by
  constructor
  · intro as d bs w
    rw [merge_pdfs_offsets]
    simpa using offsetList_get as 0 d bs
  · intro ss w h
    rw [merge_pdfs_totalPages, mergeLoop_pages]
    simpa [initState] using sumPages_merged ss h

/-- C3, witnessed on a two-source merge: the second source starts at the
page count of the first, and the total is the sum of both. -/
theorem C3_witness :
    (merge_pdfs [⟨"a.pdf", true, 3, true, [], true⟩,
        ⟨"b.pdf", true, 2, true, [], true⟩] true).offsetsUsed.get? 1 =
      some 3 ∧
    (merge_pdfs [⟨"a.pdf", true, 3, true, [], true⟩,
        ⟨"b.pdf", true, 2, true, [], true⟩] true).totalPages = 5 := by
  constructor
  · have h := C3_offsets_and_total.1 [⟨"a.pdf", true, 3, true, [], true⟩]
      ⟨"b.pdf", true, 2, true, [], true⟩ [] true
    simpa using h
  · have h := C3_offsets_and_total.2
      [⟨"a.pdf", true, 3, true, [], true⟩, ⟨"b.pdf", true, 2, true, [], true⟩]
      true (by intro d hd; fin_cases hd <;> decide)
    simpa using h

/-- C4: confirmed.  Every source receives a recorded outcome (the loop is
never aborted by a failing source); a source that fails to open changes
neither the entries, nor the total page count, nor the outcomes recorded
for the sources around it; an unreadable outline alone still lets the
source merge its pages; and as soon as one source was appended, overall
success is decided solely by the final serialization. -/
theorem C4_error_containment :
    (∀ (ss : List SourceDoc) (w : Bool),
      (merge_pdfs ss w).statuses.length = ss.length) ∧
    (∀ (as : List SourceDoc) (bad : SourceDoc) (bs : List SourceDoc) (w : Bool),
      bad.openOk = false →
        (merge_pdfs (as ++ bad :: bs) w).statuses =
          as.map outcomeOf ++ Outcome.failedOpen :: bs.map outcomeOf ∧
        (merge_pdfs (as ++ bad :: bs) w).entries =
          (merge_pdfs (as ++ bs) w).entries ∧
        (merge_pdfs (as ++ bad :: bs) w).totalPages =
          (merge_pdfs (as ++ bs) w).totalPages) ∧
    (∀ d : SourceDoc, d.openOk = true → d.pageCount ≠ 0 → d.appendOk = true →
      outcomeOf d = Outcome.merged) ∧
    (∀ (ss : List SourceDoc) (w : Bool),
      Outcome.merged ∈ (merge_pdfs ss w).statuses →
        ((merge_pdfs ss w).ok = true ↔ w = true)) := by
  refine ⟨?_, ?_, ?_, ?_⟩
  · intro ss w
    rw [merge_pdfs_statuses, List.length_map]
  · intro as bad bs w hbad
    refine ⟨?_, ?_, ?_⟩
    · rw [merge_pdfs_statuses]
      simp [outcomeOf, hbad]
    · rw [merge_pdfs_entries, merge_pdfs_entries, mergeLoop_entries,
        mergeLoop_entries, loopEntries_skip bad hbad]
    · rw [merge_pdfs_totalPages, merge_pdfs_totalPages, mergeLoop_pages,
        mergeLoop_pages, sumPages_skip bad hbad]
  · intro d h1 h2 h3
    simp [outcomeOf, h1, h2, h3]
  · intro ss w hm
    rw [merge_pdfs_statuses] at hm
    have hsc : (mergeLoop ss initState).successCount ≠ 0 := by
      rw [mergeLoop_success]
      simp only [initState, Nat.zero_add]
      obtain ⟨d, hd, hout⟩ := List.mem_map.mp hm
      have : 0 < ss.countP (fun d => decide (outcomeOf d = Outcome.merged)) :=
        List.countP_pos_iff.mpr ⟨d, hd, by simp [hout]⟩
      omega
    rw [merge_pdfs_ok]
    simp [hsc]

/-- C4, witnessed: a failing source in the middle leaves the surrounding
outcomes and the merged pages unchanged, and with one merged source the
overall result tracks the write outcome. -/
theorem C4_witness :
    (merge_pdfs [⟨"bad.pdf", false, 5, true, [], true⟩,
        ⟨"ok.pdf", true, 2, true, [], true⟩] true).statuses =
      [Outcome.failedOpen, Outcome.merged] ∧
    (merge_pdfs [⟨"bad.pdf", false, 5, true, [], true⟩,
        ⟨"ok.pdf", true, 2, true, [], true⟩] true).totalPages =
      (merge_pdfs [⟨"ok.pdf", true, 2, true, [], true⟩] true).totalPages ∧
    ((merge_pdfs [⟨"bad.pdf", false, 5, true, [], true⟩,
        ⟨"ok.pdf", true, 2, true, [], true⟩] true).ok = true ↔ true = true) := by
  refine ⟨?_, ?_, ?_⟩
  · have h := (C4_error_containment.2.1 []
      ⟨"bad.pdf", false, 5, true, [], true⟩
      [⟨"ok.pdf", true, 2, true, [], true⟩] true (by decide)).1
    simpa using h
  · exact (C4_error_containment.2.1 []
      ⟨"bad.pdf", false, 5, true, [], true⟩
      [⟨"ok.pdf", true, 2, true, [], true⟩] true (by decide)).2.2
  · exact C4_error_containment.2.2.2
      [⟨"bad.pdf", false, 5, true, [], true⟩,
        ⟨"ok.pdf", true, 2, true, [], true⟩] true (by decide)

/-- C5: confirmed.  A source whose open fails contributes nothing at all:
the merged entries and total pages are exactly those of the same merge
without it, and the failure is recorded per-file at its position. -/
theorem C5_open_error_skipped (as : List SourceDoc) (d : SourceDoc)
    (bs : List SourceDoc) (w : Bool) (h : d.openOk = false) :
    (merge_pdfs (as ++ d :: bs) w).entries =
      (merge_pdfs (as ++ bs) w).entries ∧
    (merge_pdfs (as ++ d :: bs) w).totalPages =
      (merge_pdfs (as ++ bs) w).totalPages ∧
    (merge_pdfs (as ++ d :: bs) w).statuses.get? as.length =
      some Outcome.failedOpen := by
  refine ⟨?_, ?_, ?_⟩
  · rw [merge_pdfs_entries, merge_pdfs_entries, mergeLoop_entries,
      mergeLoop_entries, loopEntries_skip d h]
  · rw [merge_pdfs_totalPages, merge_pdfs_totalPages, mergeLoop_pages,
      mergeLoop_pages, sumPages_skip d h]
  · rw [merge_pdfs_statuses, map_get_middle]
    simp [outcomeOf, h]

/-- C5, witnessed: a corrupt first source contributes no pages and no
bookmarks, and its failure is recorded. -/
theorem C5_witness :
    (merge_pdfs [⟨"corrupt.pdf", false, 9, true,
        [OutlineItem.node (some "Lost") (some 0) []], true⟩,
        ⟨"good.pdf", true, 4, true, [], true⟩] true).entries =
      (merge_pdfs [⟨"good.pdf", true, 4, true, [], true⟩] true).entries ∧
    (merge_pdfs [⟨"corrupt.pdf", false, 9, true,
        [OutlineItem.node (some "Lost") (some 0) []], true⟩,
        ⟨"good.pdf", true, 4, true, [], true⟩] true).statuses.get? 0 =
      some Outcome.failedOpen := by
  have h := C5_open_error_skipped []
    ⟨"corrupt.pdf", false, 9, true,
      [OutlineItem.node (some "Lost") (some 0) []], true⟩
    [⟨"good.pdf", true, 4, true, [], true⟩] true (by decide)
  exact ⟨h.1, h.2.2⟩

theorem sourceEntries_shape (off : Nat) (d : SourceDoc)
    (hOpen : d.openOk = true) (hpc : d.pageCount ≠ 0) :
    sourceEntries off d =
      ⟨1, splitext_root d.name, off⟩ ::
        (if d.outlineOk then
          (add_bookmarks_recursively 0 d.outline off).map levelUp
         else []) := by
  rw [sourceEntries_def, if_pos ⟨hOpen, hpc⟩]
  congr 1
  by_cases h : d.outlineOk = true
  · rw [if_pos h, if_pos h]
    exact add_bookmarks_succ 0 d.outline off
  · rw [if_neg h, if_neg h]

/-- C6: the claim is false on the code.  The helper drops a bookmark only
when its title is None (or unreadable) or its destination fails to
resolve; the check is title is-not-None, so a node titled with the empty
string is kept and emitted, together with its children, instead of being
dropped. -/
theorem C6_counterexample :
    (⟨2, "", 0⟩ : Entry) ∈
      sourceEntries 0 ⟨"e.pdf", true, 1, true,
        [OutlineItem.node (some "") (some 0)
          [OutlineItem.node (some "child") (some 0) []]], true⟩ ∧
    (⟨3, "child", 0⟩ : Entry) ∈
      sourceEntries 0 ⟨"e.pdf", true, 1, true,
        [OutlineItem.node (some "") (some 0)
          [OutlineItem.node (some "child") (some 0) []]], true⟩ :=
  ⟨by decide, by decide⟩

/-- C6 amended: a node is dropped, together with its whole subtree,
exactly when its title is missing (None or unreadable) or its destination
fails to resolve; a present title, even the empty or whitespace-only
string, is kept.  Dropping is per-entry: the siblings of a dropped node
are still processed, and a merge containing a source with such a node is
identical, in every observable component, to the merge of the same list
with the invalid node and its subtree removed, so later sources are
unaffected. -/
theorem C6_amended :
    (∀ (pl off : Nat) (dst : Option Nat) (cs rest : List OutlineItem),
      add_bookmarks_recursively pl (OutlineItem.node none dst cs :: rest) off =
        add_bookmarks_recursively pl rest off) ∧
    (∀ (pl off : Nat) (t : String) (cs rest : List OutlineItem),
      add_bookmarks_recursively pl
          (OutlineItem.node (some t) none cs :: rest) off =
        add_bookmarks_recursively pl rest off) ∧
    (∀ (pl off p : Nat) (t : String) (cs rest : List OutlineItem),
      add_bookmarks_recursively pl
          (OutlineItem.node (some t) (some p) cs :: rest) off =
        ⟨pl + 1, t, p + off⟩ ::
          (add_bookmarks_recursively (pl + 1) cs off ++
            add_bookmarks_recursively pl rest off)) ∧
    (∀ (nm : String) (op ok2 ap : Bool) (pc : Nat) (dst : Option Nat)
        (cs restI : List OutlineItem) (as bs : List SourceDoc) (w : Bool),
      merge_pdfs
          (as ++ ⟨nm, op, pc, ok2,
            OutlineItem.node none dst cs :: restI, ap⟩ :: bs) w =
        merge_pdfs (as ++ ⟨nm, op, pc, ok2, restI, ap⟩ :: bs) w) := by
  have hdrop : ∀ (pl off : Nat) (dst : Option Nat) (cs rest : List OutlineItem),
      add_bookmarks_recursively pl (OutlineItem.node none dst cs :: rest) off =
        add_bookmarks_recursively pl rest off := by
    intro pl off dst cs rest
    simp [add_bookmarks_recursively, add_bookmarks_item]
  refine ⟨hdrop, ?_, ?_, ?_⟩
  · intro pl off t cs rest
    simp [add_bookmarks_recursively, add_bookmarks_item]
  · intro pl off p t cs rest
    simp [add_bookmarks_recursively, add_bookmarks_item]
  · intro nm op ok2 ap pc dst cs restI as bs w
    have hps : ∀ off,
        processSource off ⟨nm, op, pc, ok2,
          OutlineItem.node none dst cs :: restI, ap⟩ =
          processSource off ⟨nm, op, pc, ok2, restI, ap⟩ := by
      intro off
      simp only [processSource, hdrop]
    have hloop := mergeLoop_congr _ _ hps as bs initState
    simp only [merge_pdfs, hloop]

/-- C7: confirmed.  A source with no first-page bookmark (Case B) that
opens with at least one page yields exactly one synthetic wrapper: the
head entry at level 1, titled with the file name without extension,
aiming at the page offset current before the source; every entry derived
from its own outline follows at its source-local level plus one (so the
wrapper is the only level-1 entry for this source). -/
theorem C7_caseB_wrapper (off : Nat) (d : SourceDoc)
    (hOpen : d.openOk = true) (hpc : d.pageCount ≠ 0)
    (_hfp : hasFirstPageBookmark d.outline = false) :
    sourceEntries off d =
      ⟨1, splitext_root d.name, off⟩ ::
        (if d.outlineOk then
          (add_bookmarks_recursively 0 d.outline off).map levelUp
         else []) ∧
    ∀ e ∈ (sourceEntries off d).tail, 2 ≤ e.level := by
  have hs := sourceEntries_shape off d hOpen hpc
  refine ⟨hs, ?_⟩
  rw [hs]
  simp only [List.tail_cons]
  by_cases h : d.outlineOk = true
  · rw [if_pos h]
    intro e he
    obtain ⟨e2, he2, rfl⟩ := List.mem_map.mp he
    have hl := level_lb he2
    simp only [levelUp]
    omega
  · rw [if_neg h]
    intro e he
    simp at he

/-- C7, witnessed at a concrete Case B source. -/
theorem C7_witness :
    sourceEntries 4 ⟨"rep.pdf", true, 2, true,
        [OutlineItem.node (some "Ch1") (some 1) []], true⟩ =
      [⟨1, "rep", 4⟩, ⟨2, "Ch1", 5⟩] ∧
    (2 : Nat) ≤ (⟨2, "Ch1", 5⟩ : Entry).level := by
  have h := C7_caseB_wrapper 4
    ⟨"rep.pdf", true, 2, true,
      [OutlineItem.node (some "Ch1") (some 1) []], true⟩
    (by decide) (by decide) (by decide)
  constructor
  · rw [h.1]; decide
  · exact h.2 ⟨2, "Ch1", 5⟩ (by rw [h.1]; decide)

/-- C8: the claim is false on the code.  The two encodings of the same
forest are not equivalent inputs: when children arrive as a nested list
the helper recurses with the SAME parent (the code comments say the parent
remains the same for items within a list), so the children surface at
their parent level, while children reached through the children attribute
are nested one level deeper.  On the forest with root A and child B the
two encodings yield different entries. -/
theorem C8_counterexample :
    add_bookmarks_recursively 1
        (encodeLinkedForest
          [BNode.mk (some "A") (some 0) [BNode.mk (some "B") (some 1) []]]) 0 =
      [⟨2, "A", 0⟩, ⟨3, "B", 1⟩] ∧
    add_bookmarks_recursively 1
        (encodeNestedForest
          [BNode.mk (some "A") (some 0) [BNode.mk (some "B") (some 1) []]]) 0 =
      [⟨2, "A", 0⟩, ⟨2, "B", 1⟩] ∧
    add_bookmarks_recursively 1
        (encodeLinkedForest
          [BNode.mk (some "A") (some 0) [BNode.mk (some "B") (some 1) []]]) 0 ≠
      add_bookmarks_recursively 1
        (encodeNestedForest
          [BNode.mk (some "A") (some 0) [BNode.mk (some "B") (some 1) []]]) 0 :=
  ⟨by decide, by decide, by decide⟩

/-- C8 amended: for a forest all of whose nodes carry a title and a
resolvable destination, the two encodings produce the same titles and
destination pages in the same order, but not with the same nesting: the
nested-lists encoding flattens every node to the level just below the
enclosing parent, while the linked encoding nests children one level
deeper per generation. -/
theorem C8_amended (pl pl2 off : Nat) (bs : List BNode)
    (hv : validBForest bs = true) :
    (add_bookmarks_recursively pl (encodeLinkedForest bs) off).map entryTP =
      (add_bookmarks_recursively pl2 (encodeNestedForest bs) off).map entryTP ∧
    (∀ e ∈ add_bookmarks_recursively pl2 (encodeNestedForest bs) off,
      e.level = pl2 + 1) :=
  ⟨nested_linked_tp pl pl2 off bs hv, nested_level pl2 off bs⟩

/-- C8 amended, witnessed at the two-node forest used above. -/
theorem C8_witness :
    (add_bookmarks_recursively 1
        (encodeLinkedForest
          [BNode.mk (some "A2") (some 0)
            [BNode.mk (some "B2") (some 1) []]]) 0).map entryTP =
      (add_bookmarks_recursively 1
        (encodeNestedForest
          [BNode.mk (some "A2") (some 0)
            [BNode.mk (some "B2") (some 1) []]]) 0).map entryTP ∧
    (⟨2, "B2", 1⟩ : Entry).level = 2 := by
  have h := C8_amended 1 1 0
    [BNode.mk (some "A2") (some 0) [BNode.mk (some "B2") (some 1) []]]
    (by decide)
  exact ⟨h.1, h.2 ⟨2, "B2", 1⟩ (by decide)⟩

/-- C9: confirmed.  Running the offset algorithm with page offset 0 and no
level increase on an already-adjusted, fully valid outline (every entry
titled, every destination resolved) reproduces the output unchanged:
reading the emitted flat list back as a forest and processing it again
returns the identical list. -/
theorem C9_idempotent (f : List OutlineItem) (hv : validForest f = true) :
    add_bookmarks_recursively 0
        (unflatten (add_bookmarks_recursively 0 f 0)) 0 =
      add_bookmarks_recursively 0 f 0 := by
  rw [unflatten_rt 0 f hv]

/-- C9, witnessed at a concrete two-level valid outline. -/
theorem C9_witness :
    validForest
        [OutlineItem.node (some "X") (some 1)
          [OutlineItem.node (some "Y") (some 2) []]] = true ∧
    add_bookmarks_recursively 0
        (unflatten (add_bookmarks_recursively 0
          [OutlineItem.node (some "X") (some 1)
            [OutlineItem.node (some "Y") (some 2) []]] 0)) 0 =
      add_bookmarks_recursively 0
        [OutlineItem.node (some "X") (some 1)
          [OutlineItem.node (some "Y") (some 2) []]] 0 :=
  ⟨by decide, C9_idempotent _ (by decide)⟩

/-- C10: confirmed.  When no source is successfully appended the write
branch of merge_pdfs is never entered: the output path is not opened (no
file is created or overwritten) and the operation is reported as failed. -/
theorem C10_no_success_no_write (ss : List SourceDoc) (w : Bool)
    (h : ∀ d ∈ ss, outcomeOf d ≠ Outcome.merged) :
    (merge_pdfs ss w).wrote = false ∧ (merge_pdfs ss w).ok = false := by
  have hsc : (mergeLoop ss initState).successCount = 0 := by
    rw [mergeLoop_success]
    simp only [initState, Nat.zero_add]
    rw [List.countP_eq_zero]
    intro d hd
    simpa using h d hd
  simp [merge_pdfs, hsc]

/-- C10, witnessed: one unreadable source and one empty source, nothing
written even though the writer itself would have succeeded. -/
theorem C10_witness :
    (merge_pdfs [⟨"x.pdf", false, 3, true, [], true⟩,
        ⟨"y.pdf", true, 0, true, [], true⟩] true).wrote = false ∧
    (merge_pdfs [⟨"x.pdf", false, 3, true, [], true⟩,
        ⟨"y.pdf", true, 0, true, [], true⟩] true).ok = false :=
  C10_no_success_no_write _ true (by intro d hd; fin_cases hd <;> decide)
